import Mathlib

/-!
Formal model of the randomized SVD implementation in `rsvd.py`
(the Halko–Martinsson–Tropp randomized range finder `find_Q`, the
rank-reduced factorization `rsvd`, and the column scaling
`normalize_columns`), together with proofs about its behaviour.

Matrices are modelled shape-explicitly: a `Mat α` carries its number of
rows and columns and a total entry function; only entries at in-bounds
indices are meaningful, and `Mat.Eq` compares matrices on the in-bounds
region.  The dense linear-algebra primitives the code delegates to numpy
(`np.random.randn`, `np.linalg.qr`, `np.linalg.svd`) are modelled as an
abstract `LinAlg` oracle supplying the entry values, while the shapes of
their results are fixed to numpy's documented shape semantics: `qr` in
`'reduced'` mode maps an `m×c` input to `Q : m×min(m,c)`,
`R : min(m,c)×c`; `svd` with the default `full_matrices=True` maps a
`p×n` input to `u : p×p`, `s : min(p,n)`, `vh : n×n`.  The two in-scope
operations that numpy can fail on are modelled in `Except`:
`np.matmul` raises on mismatched inner dimensions, and `max(axis=0)`
raises on a reduction over an empty axis whose result is nonempty.
-/

namespace RSVD

/-- Errors numpy raises in the operations the code itself performs. -/
inductive NpError : Type
  | shapeMismatch
  | emptyReduction
deriving DecidableEq

/-- A dense matrix: explicit shape plus a total entry function.  Entries
outside the shape are junk and never observed. -/
structure Mat (α : Type) : Type where
  rows : Nat
  cols : Nat
  entry : Nat → Nat → α

/-- A one-dimensional numpy array: length plus entry function. -/
structure Vec (α : Type) : Type where
  len : Nat
  entry : Nat → α

/-- Extensional equality of matrices on the in-bounds region. -/
def Mat.Eq {α : Type} (A B : Mat α) : Prop :=
  A.rows = B.rows ∧ A.cols = B.cols ∧
    ∀ i < A.rows, ∀ j < A.cols, A.entry i j = B.entry i j

instance {α : Type} [DecidableEq α] (A B : Mat α) : Decidable (A.Eq B) := by
  unfold Mat.Eq; exact inferInstance

/-- Extensional equality of vectors on the in-bounds region. -/
def Vec.Eq {α : Type} (v w : Vec α) : Prop :=
  v.len = w.len ∧ ∀ i < v.len, v.entry i = w.entry i

instance {α : Type} [DecidableEq α] (v w : Vec α) : Decidable (v.Eq w) := by
  unfold Vec.Eq; exact inferInstance

/-- Build a matrix from a list of rows (used for concrete inputs). -/
def Mat.ofRows {α : Type} [Inhabited α] (xss : List (List α)) : Mat α :=
  ⟨xss.length, (xss.headD []).length, fun i j => ((xss.getD i []).getD j default)⟩

/-- numpy transposition `X.T`. -/
def transpose {α : Type} (A : Mat α) : Mat α :=
  ⟨A.cols, A.rows, fun i j => A.entry j i⟩

/-- The value of a matrix product (meaningful when inner dimensions agree). -/
def mmv {α : Type} [Add α] [Mul α] [Zero α] (A B : Mat α) : Mat α :=
  ⟨A.rows, B.cols,
    fun i j => ((List.range A.cols).map (fun t => A.entry i t * B.entry t j)).sum⟩

/-- The module-level alias `mm = np.matmul` of rsvd.py: matrix product,
raising on mismatched inner dimensions. -/
def mm {α : Type} [Add α] [Mul α] [Zero α] (A B : Mat α) :
    Except NpError (Mat α) :=
  if A.cols = B.rows then .ok (mmv A B) else .error .shapeMismatch

/-- The entries of column `j` of `X`, top to bottom. -/
def colEntries {α : Type} (X : Mat α) (j : Nat) : List α :=
  (List.range X.rows).map (fun i => X.entry i j)

/-- Maximum of a list, with `d` returned for the empty list. -/
def maxD {α : Type} [Max α] (l : List α) (d : α) : α :=
  match l with
  | [] => d
  | a :: t => t.foldl max a

/-- Column `j` of `X.max(axis=0)` (meaningful when `X.rows ≥ 1`). -/
def npColMax {α : Type} [Max α] (X : Mat α) (j : Nat) : α :=
  maxD (colEntries X j) (X.entry 0 j)

/-- The successful value of `X / X.max(axis=0)`: the division broadcasts
the length-`cols` row of column maxima over all rows of `X`. -/
def normv {α : Type} [Max α] [Div α] (X : Mat α) : Mat α :=
  ⟨X.rows, X.cols, fun i j => X.entry i j / npColMax X j⟩

/-- Translation of `normalize_columns(X) = X / X.max(axis=0)`.  The
reduction `X.max(axis=0)` raises numpy's zero-size-reduction error
exactly when the reduced axis is empty while the result is not, i.e.
when `X` has no rows but at least one column. -/
def normalize_columns {α : Type} [Max α] [Div α] (X : Mat α) :
    Except NpError (Mat α) :=
  if X.rows = 0 ∧ 0 < X.cols then .error .emptyReduction
  else .ok (normv X)

/-- Python slice `U[:, :k]`. -/
def sliceCols {α : Type} (A : Mat α) (k : Nat) : Mat α :=
  ⟨A.rows, min k A.cols, A.entry⟩

/-- Python slice `Vt[:k, :]`. -/
def sliceRows {α : Type} (A : Mat α) (k : Nat) : Mat α :=
  ⟨min k A.rows, A.cols, A.entry⟩

/-- Python slice `s[:k]` on a one-dimensional array. -/
def vslice {α : Type} (v : Vec α) (k : Nat) : Vec α :=
  ⟨min k v.len, v.entry⟩

/-- The external primitives consumed by the code: the Gaussian random
source behind `np.random.randn`, and the entry values of the factors
returned by `np.linalg.qr` and `np.linalg.svd`.  Only entry values are
abstract; the shapes of the factors are fixed by numpy's semantics in
`np_randn`, `np_qr` and `np_svd` below, and the numerical contracts
(orthonormality, descending singular values) are stated as explicit
predicates where a property depends on them. -/
structure LinAlg (α : Type) : Type where
  gauss : Nat → Nat → α
  qrQ : Mat α → Nat → Nat → α
  qrR : Mat α → Nat → Nat → α
  svdU : Mat α → Nat → Nat → α
  svdS : Mat α → Nat → α
  svdVt : Mat α → Nat → Nat → α

/-- `np.random.randn(n, l)`: an `n×l` matrix of draws from the external
random source. -/
def np_randn {α : Type} (la : LinAlg α) (n l : Nat) : Mat α :=
  ⟨n, l, la.gauss⟩

/-- `np.linalg.qr(Y, mode='reduced')`: for an `m×c` input, `Q` is
`m×min(m,c)` and `R` is `min(m,c)×c`. -/
def np_qr {α : Type} (la : LinAlg α) (Y : Mat α) : Mat α × Mat α :=
  (⟨Y.rows, min Y.rows Y.cols, la.qrQ Y⟩,
   ⟨min Y.rows Y.cols, Y.cols, la.qrR Y⟩)

/-- `np.linalg.svd(B)` with the default `full_matrices=True`: for a
`p×n` input, `u` is `p×p`, `s` has length `min(p,n)`, and `vh` is
`n×n`. -/
def np_svd {α : Type} (la : LinAlg α) (B : Mat α) : Mat α × Vec α × Mat α :=
  (⟨B.rows, B.rows, la.svdU B⟩,
   ⟨min B.rows B.cols, la.svdS B⟩,
   ⟨B.cols, B.cols, la.svdVt B⟩)

/-- Translation of `find_Q(A, l)` (Algorithm 4.1, randomized range
finder): draw an `n×l` Gaussian matrix, form the sketch `Y = A·Ω`,
normalize its columns, and return the `Q` factor of the reduced QR
factorization of the result, discarding `R`. -/
def find_Q {α : Type} [Add α] [Mul α] [Zero α] [Max α] [Div α]
    (la : LinAlg α) (A : Mat α) (l : Nat) : Except NpError (Mat α) := do
  let n := A.cols
  let om := np_randn la n l
  let Y ← mm A om
  let Yn ← normalize_columns Y
  let (Q, _R) := np_qr la Yn
  return Q

/-- Translation of `rsvd(A, k, l=None, return_Q=False)`.  Stage A finds
the basis `Q`; Stage B forms `B = Qᵗ·A`, takes its SVD, lifts `U = Q·S`
and truncates all three factors to `k`.  The python function returns a
3-tuple, or a 4-tuple including `Q` when `return_Q` is set; this is
modelled by an `Option (Mat α)` in the fourth slot. -/
def rsvd {α : Type} [Add α] [Mul α] [Zero α] [Max α] [Div α]
    (la : LinAlg α) (A : Mat α) (k : Nat) (lopt : Option Nat := none)
    (return_Q : Bool := false) :
    Except NpError (Mat α × Vec α × Mat α × Option (Mat α)) := do
  let l := lopt.getD (2 * k)
  let Q ← find_Q la A l
  let B ← mm (transpose Q) A
  let (S, sv, Vt) := np_svd la B
  let U ← mm Q S
  return (sliceCols U k, vslice sv k, sliceRows Vt k,
          if return_Q then some Q else none)

/-- A vector is sorted in non-increasing (descending) order. -/
def sortedDesc {α : Type} [LE α] (v : Vec α) : Prop :=
  ∀ j < v.len, ∀ i ≤ j, v.entry j ≤ v.entry i

instance {α : Type} [LE α] [DecidableRel ((· ≤ ·) : α → α → Prop)]
    (v : Vec α) : Decidable (sortedDesc v) := by
  unfold sortedDesc; exact inferInstance

/-- Dot product of columns `j1` and `j2` of `Q`. -/
def colDot {α : Type} [Add α] [Mul α] [Zero α] (Q : Mat α) (j1 j2 : Nat) : α :=
  ((List.range Q.rows).map (fun i => Q.entry i j1 * Q.entry i j2)).sum

/-- The columns of `Q` are orthonormal. -/
def orthonormalCols {α : Type} [Add α] [Mul α] [Zero α] [One α]
    (Q : Mat α) : Prop :=
  ∀ j1 < Q.cols, ∀ j2 < Q.cols, colDot Q j1 j2 = if j1 = j2 then 1 else 0

instance {α : Type} [Add α] [Mul α] [Zero α] [One α] [DecidableEq α]
    (Q : Mat α) : Decidable (orthonormalCols Q) := by
  unfold orthonormalCols; exact inferInstance

/-- The rows of `V` are orthonormal. -/
def orthonormalRows {α : Type} [Add α] [Mul α] [Zero α] [One α]
    (V : Mat α) : Prop :=
  orthonormalCols (transpose V)

instance {α : Type} [Add α] [Mul α] [Zero α] [One α] [DecidableEq α]
    (V : Mat α) : Decidable (orthonormalRows V) := by
  unfold orthonormalRows; exact inferInstance

/-- A predicate on the payload of a successful `Except` computation:
`okP P r` holds when `r` succeeded and its value satisfies `P`. -/
def okP {ε β : Type} (P : β → Prop) : Except ε β → Prop
  | .ok b => P b
  | .error _ => False

instance {ε β : Type} (P : β → Prop) [h : ∀ b, Decidable (P b)] :
    (r : Except ε β) → Decidable (okP P r)
  | .ok b => h b
  | .error _ => isFalse fun hf => hf

/-- Matrix equality lifted over `Except`: both computations fail with
the same error, or both succeed with extensionally equal matrices. -/
def exMatEq {ε : Type} [DecidableEq ε] {α : Type}
    (r s : Except ε (Mat α)) : Prop :=
  match r, s with
  | .ok A, .ok B => A.Eq B
  | .error e, .error f => e = f
  | .ok _, .error _ => False
  | .error _, .ok _ => False

instance {ε : Type} [DecidableEq ε] {α : Type} [DecidableEq α]
    (r s : Except ε (Mat α)) : Decidable (exMatEq r s) := by
  unfold exMatEq
  rcases r with e | A <;> rcases s with f | B <;> exact inferInstance

/-- A concrete oracle over `ℚ` used for concrete executions: zero
Gaussian draws and zero singular values, identity-pattern entries for
the `Q`, `R`, `u` and `vh` factors (so that every square factor it
produces is orthonormal and every singular-value vector it produces is
sorted). -/
def idLA : LinAlg ℚ where
  gauss := fun _ _ => 0
  qrQ := fun _ i j => if i = j then 1 else 0
  qrR := fun _ i j => if i = j then 1 else 0
  svdU := fun _ i j => if i = j then 1 else 0
  svdS := fun _ _ => 0
  svdVt := fun _ i j => if i = j then 1 else 0

/-- A float64 value with the IEEE-754 special values.  Finite arithmetic
is modelled exactly (no rounding or overflow), which is faithful for the
operations at issue in the claims about `normalize_columns`: ordering,
maximum (numpy's `max` propagates NaN, so NaN sits above every other
value in `NpFloat.maximum`), and division by zero, all of which IEEE-754
defines exactly. -/
inductive NpFloat : Type
  | fin (q : ℚ)
  | inf
  | ninf
  | nan
deriving DecidableEq, Inhabited

/-- numpy's `maximum` on float64: NaN-propagating, `-inf` below and
`inf` above every finite value. -/
def NpFloat.maximum : NpFloat → NpFloat → NpFloat
  | .nan, _ => .nan
  | _, .nan => .nan
  | .inf, _ => .inf
  | _, .inf => .inf
  | .ninf, y => y
  | x, .ninf => x
  | .fin a, .fin b => if a ≤ b then .fin b else .fin a

instance : Max NpFloat := ⟨NpFloat.maximum⟩

/-- IEEE-754 float64 division restricted to the cases above: division
by zero yields `±inf` for a nonzero dividend and NaN for `0/0`; NaN
propagates; `±inf` divided by a finite value keeps its sign. -/
def NpFloat.div : NpFloat → NpFloat → NpFloat
  | .nan, _ => .nan
  | _, .nan => .nan
  | .fin a, .fin b =>
      if b = 0 then (if a = 0 then .nan else if 0 < a then .inf else .ninf)
      else .fin (a / b)
  | .inf, .fin b => if 0 ≤ b then .inf else .ninf
  | .ninf, .fin b => if 0 ≤ b then .ninf else .inf
  | .fin _, .inf => .fin 0
  | .fin _, .ninf => .fin 0
  | .inf, .inf => .nan
  | .inf, .ninf => .nan
  | .ninf, .inf => .nan
  | .ninf, .ninf => .nan

instance : Div NpFloat := ⟨NpFloat.div⟩

/-- A value is finite when it is neither NaN nor `±inf`. -/
def NpFloat.isFinite : NpFloat → Bool
  | .fin _ => true
  | _ => false

/-- Modelled from the spec's words for claim C4 only (the code divides
by `X.max(axis=0)` instead): the entry of largest absolute value in
column `j` of `X`. -/
def maxAbsEntry {α : Type} [LinearOrderedField α] (X : Mat α) (j : Nat) : α :=
  match colEntries X j with
  | [] => X.entry 0 j
  | a :: t => t.foldl (fun x y => if |x| < |y| then y else x) a

/-- Concrete 1×1 test matrix. -/
def A11 : Mat ℚ := Mat.ofRows [[1]]

/-- Concrete 2×1 test matrix. -/
def A21 : Mat ℚ := Mat.ofRows [[1], [2]]

/-- Concrete 2×2 test matrix (the identity). -/
def AI2 : Mat ℚ := Mat.ofRows [[1, 0], [0, 1]]

/-- Concrete 1×3 test matrix. -/
def A13 : Mat ℚ := Mat.ofRows [[1, 1, 1]]

/-- Concrete 2×1 test matrix whose column maximum (1) differs from its
entry of largest magnitude (-2). -/
def X4 : Mat ℚ := Mat.ofRows [[-2], [1]]

/-- Concrete 2×1 test matrix with a negative column maximum. -/
def X7 : Mat ℚ := Mat.ofRows [[-2], [-1]]

/-- Concrete 2×1 test matrix over `NpFloat` whose column maximum is
zero. -/
def X8 : Mat NpFloat := Mat.ofRows [[NpFloat.fin 0], [NpFloat.fin (-1)]]

/-- The basis matrix produced by `find_Q` on the concrete run used to
exercise the stage-B theorem. -/
def QW : Mat ℚ := (np_qr idLA (normv (mmv AI2 (np_randn idLA AI2.cols 1)))).1

/-- The singular values produced by `idLA` are always sorted. -/
theorem idLA_sorted (B : Mat ℚ) : sortedDesc ((np_svd idLA B).2.1) :=
  fun _ _ _ _ => le_refl 0

/-- Evaluation of `find_Q`: whenever the column-max reduction does not
hit an empty axis (the sketch `A·Ω` is `rows(A)×l`), `find_Q` succeeds
and returns the first factor of the reduced QR factorization of the
normalized sketch. -/
theorem find_Q_eq {α : Type} [Add α] [Mul α] [Zero α] [Max α] [Div α]
    (la : LinAlg α) (A : Mat α) (l : Nat) (h : ¬(A.rows = 0 ∧ 0 < l)) :
    find_Q la A l = .ok (np_qr la (normv (mmv A (np_randn la A.cols l)))).1 := by
  have h1 : mm A (np_randn la A.cols l) = .ok (mmv A (np_randn la A.cols l)) := by
    simp [mm, np_randn]
  have h2 : normalize_columns (mmv A (np_randn la A.cols l)) =
      .ok (normv (mmv A (np_randn la A.cols l))) := by
    rw [normalize_columns, if_neg]
    simpa [mmv, np_randn] using h
  simp [find_Q, h1, h2, Bind.bind, Except.bind, Functor.map, Except.map, Pure.pure, Except.pure]

/-- Evaluation of `rsvd`: whenever the column-max reduction does not hit
an empty axis, `rsvd` succeeds and returns the truncated stage-B factors
built from the basis `Q`, with `Q` itself in the fourth slot when
`return_Q` is set. -/
theorem rsvd_eq {α : Type} [Add α] [Mul α] [Zero α] [Max α] [Div α]
    (la : LinAlg α) (A : Mat α) (k : Nat) (lopt : Option Nat) (b : Bool)
    (h : ¬(A.rows = 0 ∧ 0 < lopt.getD (2 * k))) :
    rsvd la A k lopt b =
      (let l := lopt.getD (2 * k)
       let Q := (np_qr la (normv (mmv A (np_randn la A.cols l)))).1
       let B := mmv (transpose Q) A
       let F := np_svd la B
       .ok (sliceCols (mmv Q F.1) k, vslice F.2.1 k, sliceRows F.2.2 k,
            if b then some Q else none)) := by
  have h1 := find_Q_eq la A (lopt.getD (2 * k)) h
  have h2 : mm (transpose ((np_qr la
        (normv (mmv A (np_randn la A.cols (lopt.getD (2 * k)))))).1)) A =
      .ok (mmv (transpose ((np_qr la
        (normv (mmv A (np_randn la A.cols (lopt.getD (2 * k)))))).1)) A) := by
    simp [mm, np_qr, transpose, normv, mmv]
  have h3 : mm ((np_qr la
        (normv (mmv A (np_randn la A.cols (lopt.getD (2 * k)))))).1)
      ((np_svd la (mmv (transpose ((np_qr la
        (normv (mmv A (np_randn la A.cols (lopt.getD (2 * k)))))).1)) A)).1) =
      .ok (mmv ((np_qr la
        (normv (mmv A (np_randn la A.cols (lopt.getD (2 * k)))))).1)
      ((np_svd la (mmv (transpose ((np_qr la
        (normv (mmv A (np_randn la A.cols (lopt.getD (2 * k)))))).1)) A)).1)) := by
    simp [mm, np_qr, np_svd, transpose, normv, mmv]
  simp [rsvd, h1, h2, h3, Bind.bind, Except.bind, Functor.map, Except.map, Pure.pure, Except.pure]

/-- A python slice of a vector sorted in non-increasing order is itself
sorted in non-increasing order. -/
theorem sortedDesc_vslice {α : Type} [LE α] (v : Vec α) (k : Nat)
    (h : sortedDesc v) : sortedDesc (vslice v k) := by
  intro j hj i hij
  exact h j (lt_of_lt_of_le hj (Nat.min_le_right k v.len)) i hij

/-- `NpFloat.maximum` returns one of its two arguments. -/
theorem NpFloat.maximum_choice (a b : NpFloat) :
    max a b = a ∨ max a b = b := by
  cases a <;> cases b <;>
    first
      | exact Or.inl rfl
      | exact Or.inr rfl
      | (rename_i x y
         by_cases h : x ≤ y
         · exact Or.inr (by simp [Max.max, NpFloat.maximum, h])
         · exact Or.inl (by simp [Max.max, NpFloat.maximum, h]))

/-- For a `Max` operation that returns one of its arguments, the
maximum of a nonempty list is an element of the list. -/
theorem maxD_mem {α : Type} [Max α]
    (hc : ∀ a b : α, max a b = a ∨ max a b = b) (l : List α) (d : α)
    (hne : l ≠ []) : maxD l d ∈ l := by
  match l with
  | [] => exact absurd rfl hne
  | a :: t =>
    suffices haux : ∀ (t : List α) (a : α),
        t.foldl max a = a ∨ t.foldl max a ∈ t by
      rcases haux t a with h | h
      · show t.foldl max a ∈ a :: t
        rw [h]; exact List.mem_cons_self a t
      · show t.foldl max a ∈ a :: t
        exact List.mem_cons_of_mem a h
    intro t
    induction t with
    | nil => intro a; exact Or.inl rfl
    | cons b t ih =>
      intro a
      rcases ih (max a b) with h | h
      · rcases hc a b with hab | hab
        · left
          show t.foldl max (max a b) = a
          rw [h]; exact hab
        · right
          show t.foldl max (max a b) ∈ b :: t
          rw [h, hab]; exact List.mem_cons_self b t
      · right
        show t.foldl max (max a b) ∈ b :: t
        exact List.mem_cons_of_mem b h

/-- Dividing through by a nonnegative constant commutes with the
running maximum of a fold. -/
theorem foldl_max_div {α : Type} [LinearOrderedField α] (c : α)
    (hc : 0 ≤ c) (t : List α) :
    ∀ a : α, (t.map (fun x => x / c)).foldl max (a / c) =
      (t.foldl max a) / c := by
  induction t with
  | nil => intro a; rfl
  | cons b t ih =>
    intro a
    simp only [List.map_cons, List.foldl_cons, max_div_div_right hc]
    exact ih (max a b)

/-- Dividing through by a nonnegative constant commutes with `maxD`. -/
theorem maxD_div {α : Type} [LinearOrderedField α] (c : α) (hc : 0 ≤ c)
    (l : List α) (d : α) :
    maxD (l.map (fun x => x / c)) (d / c) = maxD l d / c := by
  cases l with
  | nil => rfl
  | cons a t => simpa [maxD] using foldl_max_div c hc t a

/-- The column entries of the normalized matrix are the original column
entries divided by the column maximum. -/
theorem colEntries_normv {α : Type} [Max α] [Div α] (X : Mat α) (j : Nat) :
    colEntries (normv X) j =
      (colEntries X j).map (fun x => x / npColMax X j) := by
  simp [colEntries, normv, List.map_map]

/-- After normalization, each column maximum is the original column
maximum divided by itself. -/
theorem npColMax_normv {α : Type} [LinearOrderedField α] (X : Mat α)
    (j : Nat) (hc : 0 ≤ npColMax X j) :
    npColMax (normv X) j = npColMax X j / npColMax X j := by
  show maxD (colEntries (normv X) j) ((normv X).entry 0 j) = _
  rw [colEntries_normv]
  exact maxD_div (npColMax X j) hc (colEntries X j) (X.entry 0 j)

unseal Rat.mul Rat.inv Rat.add Rat.sub in
/-- C4 (counterexample): `normalize_columns` does not divide column `j`
by the entry of largest absolute value in that column.  On
`X4 = [[-2], [1]]` the code divides by the signed maximum `1`, not by
the maximum-magnitude entry `-2`. -/
theorem normalize_columns_absmax_cex :
    ¬ okP (fun Y => Y.rows = X4.rows ∧ Y.cols = X4.cols ∧
        ∀ i < X4.rows, ∀ j < X4.cols,
          Y.entry i j = X4.entry i j / maxAbsEntry X4 j)
      (normalize_columns X4) := by decide

/-- C4 (amended): for every matrix `X` with at least one row,
`normalize_columns(X)` succeeds and rescales each column `j` by that
column's maximum entry in the signed order (`X.max(axis=0)`), not by
its maximum-magnitude entry: `result[i][j] = X[i][j] / max(X[:, j])`. -/
theorem normalize_columns_signed_max {α : Type} [Max α] [Div α]
    (X : Mat α) (h0 : 0 < X.rows) :
    normalize_columns X = .ok (normv X) ∧
    (normv X).rows = X.rows ∧ (normv X).cols = X.cols ∧
    ∀ i < X.rows, ∀ j < X.cols,
      (normv X).entry i j = X.entry i j / npColMax X j := by
  refine ⟨?_, rfl, rfl, fun i _ j _ => rfl⟩
  rw [normalize_columns, if_neg]
  rintro ⟨h1, -⟩; omega

/-- C4 (witness): the amended statement evaluated on the concrete
matrix `A21 = [[1], [2]]`. -/
theorem normalize_columns_signed_max_witness :
    0 < A21.rows ∧
    (normalize_columns A21 = .ok (normv A21) ∧
     (normv A21).rows = A21.rows ∧ (normv A21).cols = A21.cols ∧
     ∀ i < A21.rows, ∀ j < A21.cols,
       (normv A21).entry i j = A21.entry i j / npColMax A21 j) :=
  ⟨by decide, normalize_columns_signed_max A21 (by decide)⟩

unseal Rat.mul Rat.inv Rat.add Rat.sub in
/-- C7 (counterexample): `normalize_columns` is not idempotent.  On
`X7 = [[-2], [-1]]`, whose column maximum is the negative value `-1`,
one application yields `[[2], [1]]` but a second application yields
`[[1], [1/2]]`. -/
theorem normalize_columns_idem_cex :
    ¬ exMatEq (normalize_columns X7 >>= normalize_columns)
      (normalize_columns X7) := by decide

/-- C7 (amended): for every matrix `X` with at least one row all of
whose column maxima are positive, applying `normalize_columns` twice
yields the same result as applying it once (each column's new maximum
is then indeed 1). -/
theorem normalize_columns_idem {α : Type} [LinearOrderedField α]
    (X : Mat α) (h0 : 0 < X.rows)
    (hpos : ∀ j < X.cols, 0 < npColMax X j) :
    exMatEq (normalize_columns X >>= normalize_columns)
      (normalize_columns X) := by
  have hX : normalize_columns X = .ok (normv X) := by
    rw [normalize_columns, if_neg]; rintro ⟨h1, -⟩; omega
  have hY : normalize_columns (normv X) = .ok (normv (normv X)) := by
    rw [normalize_columns, if_neg]
    rintro ⟨h1, -⟩
    simp [normv] at h1; omega
  rw [hX]
  show exMatEq (normalize_columns (normv X)) (.ok (normv X))
  rw [hY]
  show Mat.Eq (normv (normv X)) (normv X)
  refine ⟨rfl, rfl, fun i _ j hj => ?_⟩
  have hM : npColMax (normv X) j = 1 := by
    rw [npColMax_normv X j (le_of_lt (hpos j hj))]
    exact div_self (ne_of_gt (hpos j hj))
  show (normv X).entry i j / npColMax (normv X) j = (normv X).entry i j
  rw [hM, div_one]

/-- C7 (witness): the amended statement evaluated on the concrete
matrix `A21 = [[1], [2]]`, whose column maximum 2 is positive. -/
theorem normalize_columns_idem_witness :
    (0 < A21.rows ∧ ∀ j < A21.cols, 0 < npColMax A21 j) ∧
    exMatEq (normalize_columns A21 >>= normalize_columns)
      (normalize_columns A21) :=
  ⟨by decide, normalize_columns_idem A21 (by decide) (by decide)⟩

/-- C8 (confirmed): on any matrix with at least one row that has a
column whose maximum entry is zero, `normalize_columns` raises no
error and the resulting column contains a non-finite (NaN or infinite)
value, produced by the division by zero. -/
theorem normalize_columns_zero_max (X : Mat NpFloat) (h0 : 0 < X.rows)
    (j : Nat) (_hj : j < X.cols) (hmax : npColMax X j = NpFloat.fin 0) :
    normalize_columns X = .ok (normv X) ∧
    ∃ i < X.rows, ((normv X).entry i j).isFinite = false := by
  constructor
  · rw [normalize_columns, if_neg]; rintro ⟨h1, -⟩; omega
  · have hne : colEntries X j ≠ [] := by
      simp only [colEntries, ne_eq, List.map_eq_nil_iff, List.range_eq_nil]
      omega
    have hmem : npColMax X j ∈ colEntries X j :=
      maxD_mem NpFloat.maximum_choice _ _ hne
    rw [hmax] at hmem
    obtain ⟨i, hi, hij⟩ := by
      simpa [colEntries, List.mem_map, List.mem_range] using hmem
    refine ⟨i, hi, ?_⟩
    show (X.entry i j / npColMax X j).isFinite = false
    rw [hij, hmax]
    rfl

/-- C8 (witness): the statement evaluated on the concrete matrix
`X8 = [[0], [-1]]` over `NpFloat`, whose column maximum is zero. -/
theorem normalize_columns_zero_max_witness :
    (0 < X8.rows ∧ 0 < X8.cols ∧ npColMax X8 0 = NpFloat.fin 0) ∧
    (normalize_columns X8 = .ok (normv X8) ∧
     ∃ i < X8.rows, ((normv X8).entry i 0).isFinite = false) :=
  ⟨by decide, normalize_columns_zero_max X8 (by decide) 0 (by decide)
      (by decide)⟩

/-- C2 (counterexample): `find_Q(A, l)` does not always return an
`m×l` matrix.  On the 1×1 matrix `A11` with `l = 2`, the reduced QR
factorization of the 1×2 sketch yields a `Q` with `min(1, 2) = 1`
column, not 2. -/
theorem find_Q_shape_cex :
    ¬ okP (fun Q => Q.rows = A11.rows ∧ Q.cols = 2)
      (find_Q idLA A11 2) := by decide

/-- C2 (amended): for every matrix `A` with at least one row and every
`l`, `find_Q(A, l)` performs exactly these steps in this order: draw an
`n×l` matrix Ω from the random source, compute the sketch `Y = A·Ω` by
dense matrix multiplication, normalize `Y`'s columns, compute a reduced
QR factorization of the result, and return its first factor `Q`
(discarding `R`); `Q` has shape `m×min(m,l)`, which is `m×l` exactly
when `l ≤ m`. -/
theorem find_Q_steps {α : Type} [Add α] [Mul α] [Zero α] [Max α] [Div α]
    (la : LinAlg α) (A : Mat α) (l : Nat) (h0 : 0 < A.rows) :
    mm A (np_randn la A.cols l) = .ok (mmv A (np_randn la A.cols l)) ∧
    normalize_columns (mmv A (np_randn la A.cols l)) =
      .ok (normv (mmv A (np_randn la A.cols l))) ∧
    find_Q la A l =
      .ok ((np_qr la (normv (mmv A (np_randn la A.cols l)))).1) ∧
    (np_qr la (normv (mmv A (np_randn la A.cols l)))).1.rows = A.rows ∧
    (np_qr la (normv (mmv A (np_randn la A.cols l)))).1.cols =
      min A.rows l := by
  have h : ¬(A.rows = 0 ∧ 0 < l) := by rintro ⟨h1, -⟩; omega
  have hcond : ¬((mmv A (np_randn la A.cols l)).rows = 0 ∧
      0 < (mmv A (np_randn la A.cols l)).cols) := by
    simpa [mmv, np_randn] using h
  refine ⟨by simp [mm, np_randn], ?_, find_Q_eq la A l h, rfl, rfl⟩
  rw [normalize_columns, if_neg hcond]

/-- C2 (witness): the amended statement evaluated on the concrete run
`find_Q idLA A11 1`. -/
theorem find_Q_steps_witness :
    0 < A11.rows ∧
    (mm A11 (np_randn idLA A11.cols 1) =
       .ok (mmv A11 (np_randn idLA A11.cols 1)) ∧
     normalize_columns (mmv A11 (np_randn idLA A11.cols 1)) =
       .ok (normv (mmv A11 (np_randn idLA A11.cols 1))) ∧
     find_Q idLA A11 1 =
       .ok ((np_qr idLA (normv (mmv A11 (np_randn idLA A11.cols 1)))).1) ∧
     (np_qr idLA (normv (mmv A11 (np_randn idLA A11.cols 1)))).1.rows =
       A11.rows ∧
     (np_qr idLA (normv (mmv A11 (np_randn idLA A11.cols 1)))).1.cols =
       min A11.rows 1) :=
  ⟨by decide, find_Q_steps idLA A11 1 (by decide)⟩

unseal Rat.mul Rat.inv Rat.add Rat.sub in
/-- C1 (counterexample): the advertised rank-`k` output shapes fail
when `k` exceeds a dimension of `A`.  On the 2×1 matrix `A21` with
`k = 2` (so `l = 4`), the returned `Σ_k` has length 1, not 2, and
`Vᵗ_k` is 1×1, not 2×1. -/
theorem rsvd_rank_shape_cex :
    ¬ okP (fun o => o.1.rows = A21.rows ∧ o.1.cols = 2 ∧
        o.2.1.len = 2 ∧ sortedDesc o.2.1 ∧
        o.2.2.1.rows = 2 ∧ o.2.2.1.cols = A21.cols)
      (rsvd idLA A21 2 none false) := by decide

/-- C1 (amended): for every matrix `A` and `1 ≤ k ≤ min(m, n)`, with
`l` defaulting to `2k` and the external SVD returning descending
singular values, `rsvd(A, k)` returns exactly the first `k` columns of
`U = Q·S`, the first `k` entries of `Σ`, and the first `k` rows of
`Vᵗ`, with shapes `(m, k)`, length `k` (sorted non-increasingly), and
`(k, n)` respectively. -/
theorem rsvd_rank_shape {α : Type} [Add α] [Mul α] [Zero α] [Max α]
    [Div α] [LE α] (la : LinAlg α) (A : Mat α) (k : Nat)
    (hk : 1 ≤ k) (hm : k ≤ A.rows) (hn : k ≤ A.cols)
    (hsort : ∀ B, sortedDesc ((np_svd la B).2.1)) :
    ∃ Q, find_Q la A (2 * k) = .ok Q ∧
      rsvd la A k none false =
        .ok (sliceCols (mmv Q ((np_svd la (mmv (transpose Q) A)).1)) k,
             vslice ((np_svd la (mmv (transpose Q) A)).2.1) k,
             sliceRows ((np_svd la (mmv (transpose Q) A)).2.2) k, none) ∧
      (sliceCols (mmv Q ((np_svd la (mmv (transpose Q) A)).1)) k).rows =
        A.rows ∧
      (sliceCols (mmv Q ((np_svd la (mmv (transpose Q) A)).1)) k).cols =
        k ∧
      (vslice ((np_svd la (mmv (transpose Q) A)).2.1) k).len = k ∧
      sortedDesc (vslice ((np_svd la (mmv (transpose Q) A)).2.1) k) ∧
      (sliceRows ((np_svd la (mmv (transpose Q) A)).2.2) k).rows = k ∧
      (sliceRows ((np_svd la (mmv (transpose Q) A)).2.2) k).cols =
        A.cols := by
  have h : ¬(A.rows = 0 ∧ 0 < (none : Option Nat).getD (2 * k)) := by
    rintro ⟨h1, -⟩; omega
  refine ⟨(np_qr la (normv (mmv A (np_randn la A.cols (2 * k))))).1,
      find_Q_eq la A (2 * k) (by rintro ⟨h1, -⟩; omega), ?_, rfl, ?_, ?_,
      sortedDesc_vslice _ _ (hsort _), ?_, rfl⟩
  · simpa using rsvd_eq la A k none false h
  · show min k (min A.rows (2 * k)) = k
    omega
  · show min k (min (min A.rows (2 * k)) A.cols) = k
    omega
  · show min k A.cols = k
    omega

/-- C1 (witness): the amended statement evaluated on the concrete run
`rsvd idLA A11 1`. -/
theorem rsvd_rank_shape_witness :
    (1 ≤ 1 ∧ 1 ≤ A11.rows ∧ 1 ≤ A11.cols ∧
     ∀ B : Mat ℚ, sortedDesc ((np_svd idLA B).2.1)) ∧
    (∃ Q, find_Q idLA A11 (2 * 1) = .ok Q ∧
      rsvd idLA A11 1 none false =
        .ok (sliceCols (mmv Q ((np_svd idLA (mmv (transpose Q) A11)).1)) 1,
             vslice ((np_svd idLA (mmv (transpose Q) A11)).2.1) 1,
             sliceRows ((np_svd idLA (mmv (transpose Q) A11)).2.2) 1, none) ∧
      (sliceCols (mmv Q ((np_svd idLA (mmv (transpose Q) A11)).1)) 1).rows =
        A11.rows ∧
      (sliceCols (mmv Q ((np_svd idLA (mmv (transpose Q) A11)).1)) 1).cols =
        1 ∧
      (vslice ((np_svd idLA (mmv (transpose Q) A11)).2.1) 1).len = 1 ∧
      sortedDesc (vslice ((np_svd idLA (mmv (transpose Q) A11)).2.1) 1) ∧
      (sliceRows ((np_svd idLA (mmv (transpose Q) A11)).2.2) 1).rows = 1 ∧
      (sliceRows ((np_svd idLA (mmv (transpose Q) A11)).2.2) 1).cols =
        A11.cols) :=
  ⟨⟨le_refl 1, by decide, by decide, idLA_sorted⟩,
   rsvd_rank_shape idLA A11 1 (le_refl 1) (by decide) (by decide)
     idLA_sorted⟩

unseal Rat.mul Rat.inv Rat.add Rat.sub in
/-- C3 (counterexample): in Stage B of `rsvd` the factor `Vᵗ` is not
`l×n`.  On the concrete run with `A` the 2×2 identity and `l = 1`
(where the oracle's SVD factors at `B` are orthonormal with sorted
singular values), `B` is 1×2 but `Vᵗ` is the full 2×2 factor, so it
does not have `l = 1` rows. -/
theorem svd_stageB_cex :
    okP (fun Q =>
      orthonormalCols ((np_svd idLA (mmv (transpose Q) AI2)).1) ∧
      sortedDesc ((np_svd idLA (mmv (transpose Q) AI2)).2.1) ∧
      orthonormalRows ((np_svd idLA (mmv (transpose Q) AI2)).2.2) ∧
      (mmv (transpose Q) AI2).rows = 1 ∧
      (mmv (transpose Q) AI2).cols = AI2.cols ∧
      ¬ (np_svd idLA (mmv (transpose Q) AI2)).2.2.rows = 1)
      (find_Q idLA AI2 1) := by decide

/-- C3 (amended): in Stage B of `rsvd`, for `1 ≤ l ≤ m`, the matrix
`B = Qᵗ·A` is `l×n`, and whenever the external SVD honours its
contract at `B` (orthonormal columns of `S`, descending `Σ`,
orthonormal rows of `Vᵗ`), the computed factors have shapes: `S` is
`l×l` with orthonormal columns, `Σ` has length `min(l, n)` and is
sorted in descending order, and `Vᵗ` is `n×n` (not `l×n`) with
orthonormal rows, because `np.linalg.svd` is called in its default
full-matrices form. -/
theorem svd_stageB {α : Type} [Add α] [Mul α] [Zero α] [One α] [Max α]
    [Div α] [LE α] (la : LinAlg α) (A : Mat α) (l : Nat) (Q : Mat α)
    (hl : 1 ≤ l) (hlm : l ≤ A.rows)
    (hQ : find_Q la A l = .ok Q)
    (hU : orthonormalCols ((np_svd la (mmv (transpose Q) A)).1))
    (hs : sortedDesc ((np_svd la (mmv (transpose Q) A)).2.1))
    (hV : orthonormalRows ((np_svd la (mmv (transpose Q) A)).2.2)) :
    (mmv (transpose Q) A).rows = l ∧
    (mmv (transpose Q) A).cols = A.cols ∧
    (np_svd la (mmv (transpose Q) A)).1.rows = l ∧
    (np_svd la (mmv (transpose Q) A)).1.cols = l ∧
    orthonormalCols ((np_svd la (mmv (transpose Q) A)).1) ∧
    (np_svd la (mmv (transpose Q) A)).2.1.len = min l A.cols ∧
    sortedDesc ((np_svd la (mmv (transpose Q) A)).2.1) ∧
    (np_svd la (mmv (transpose Q) A)).2.2.rows = A.cols ∧
    (np_svd la (mmv (transpose Q) A)).2.2.cols = A.cols ∧
    orthonormalRows ((np_svd la (mmv (transpose Q) A)).2.2) := by
  have heq := find_Q_eq la A l (by rintro ⟨h1, -⟩; omega)
  rw [hQ] at heq
  have hQval := Except.ok.inj heq
  subst hQval
  refine ⟨?_, rfl, ?_, ?_, hU, ?_, hs, rfl, rfl, hV⟩
  · show min A.rows l = l
    omega
  · show min A.rows l = l
    omega
  · show min A.rows l = l
    omega
  · show min (min A.rows l) A.cols = min l A.cols
    omega

unseal Rat.mul Rat.inv Rat.add Rat.sub in
/-- C3 (witness): the amended statement evaluated on the concrete run
with `A` the 2×2 identity, `l = 1` and `Q = QW` the basis computed by
`find_Q`. -/
theorem svd_stageB_witness :
    (1 ≤ 1 ∧ 1 ≤ AI2.rows ∧ find_Q idLA AI2 1 = .ok QW ∧
     orthonormalCols ((np_svd idLA (mmv (transpose QW) AI2)).1) ∧
     sortedDesc ((np_svd idLA (mmv (transpose QW) AI2)).2.1) ∧
     orthonormalRows ((np_svd idLA (mmv (transpose QW) AI2)).2.2)) ∧
    ((mmv (transpose QW) AI2).rows = 1 ∧
     (mmv (transpose QW) AI2).cols = AI2.cols ∧
     (np_svd idLA (mmv (transpose QW) AI2)).1.rows = 1 ∧
     (np_svd idLA (mmv (transpose QW) AI2)).1.cols = 1 ∧
     orthonormalCols ((np_svd idLA (mmv (transpose QW) AI2)).1) ∧
     (np_svd idLA (mmv (transpose QW) AI2)).2.1.len = min 1 AI2.cols ∧
     sortedDesc ((np_svd idLA (mmv (transpose QW) AI2)).2.1) ∧
     (np_svd idLA (mmv (transpose QW) AI2)).2.2.rows = AI2.cols ∧
     (np_svd idLA (mmv (transpose QW) AI2)).2.2.cols = AI2.cols ∧
     orthonormalRows ((np_svd idLA (mmv (transpose QW) AI2)).2.2)) :=
  ⟨⟨le_refl 1, by decide, find_Q_eq idLA AI2 1 (by decide), by decide,
     by decide, by decide⟩,
   svd_stageB idLA AI2 1 QW (le_refl 1) (by decide)
     (find_Q_eq idLA AI2 1 (by decide)) (by decide) (by decide)
     (by decide)⟩

unseal Rat.mul Rat.inv Rat.add Rat.sub in
/-- C5 (counterexample): for `k > l` the truncation does not return
fewer than `k` rows of `Vᵗ_k` in general.  On the 2×2 identity with
`k = 2`, `l = 1`, the returned `U_k` has 1 column and `Σ_k` has 1
entry, but `Vᵗ_k` has exactly `k = 2` rows, sliced from the full 2×2
factor `Vᵗ`. -/
theorem rsvd_graceful_cex :
    ¬ okP (fun o => o.1.cols < 2 ∧ o.2.1.len < 2 ∧ o.2.2.1.rows < 2)
      (rsvd idLA AI2 2 (some 1) false) := by decide

/-- C5 (amended): for every matrix `A` with at least one row and
integers `k > l ≥ 1`, `rsvd(A, k, l)` raises no error: it succeeds,
the truncation slices silently return fewer than `k` columns of `U_k`
and fewer than `k` entries of `Σ_k`, while `Vᵗ_k` has `min(k, n)` rows
(fewer than `k` only when `n < k`, since `Vᵗ` is the full `n×n`
factor). -/
theorem rsvd_graceful {α : Type} [Add α] [Mul α] [Zero α] [Max α]
    [Div α] (la : LinAlg α) (A : Mat α) (k l : Nat)
    (h0 : 0 < A.rows) (_hl : 1 ≤ l) (hlk : l < k) :
    okP (fun o => o.1.cols < k ∧ o.2.1.len < k ∧
        o.2.2.1.rows = min k A.cols ∧ o.2.2.1.cols = A.cols)
      (rsvd la A k (some l) false) := by
  have h : ¬(A.rows = 0 ∧ 0 < (some l).getD (2 * k)) := by
    rintro ⟨h1, -⟩; omega
  rw [rsvd_eq la A k (some l) false h]
  show min k (min A.rows l) < k ∧
    min k (min (min A.rows l) A.cols) < k ∧
    min k A.cols = min k A.cols ∧ A.cols = A.cols
  refine ⟨by omega, by omega, rfl, rfl⟩

/-- C5 (witness): the amended statement evaluated on the concrete run
`rsvd idLA AI2 2 (some 1)`. -/
theorem rsvd_graceful_witness :
    (0 < AI2.rows ∧ 1 ≤ 1 ∧ 1 < 2) ∧
    okP (fun o => o.1.cols < 2 ∧ o.2.1.len < 2 ∧
        o.2.2.1.rows = min 2 AI2.cols ∧ o.2.2.1.cols = AI2.cols)
      (rsvd idLA AI2 2 (some 1) false) :=
  ⟨⟨by decide, le_refl 1, by decide⟩,
   rsvd_graceful idLA AI2 2 1 (by decide) (le_refl 1) (by decide)⟩

unseal Rat.mul Rat.inv Rat.add Rat.sub in
/-- C6 (counterexample): the stated inconsistent sizes require
`l ≤ m`.  On the 1×3 matrix `A13` with `l = 2`, `k = 3`, the reduced
QR gives `Q` only `min(1, 2) = 1` column, so `U_k` has 1 column, not
`l = 2`. -/
theorem rsvd_fullmat_cex :
    ¬ okP (fun o => o.1.cols = 2 ∧ o.2.1.len = min 2 A13.cols ∧
        o.2.2.1.rows = 3)
      (rsvd idLA A13 3 (some 2) false) := by decide

/-- C6 (amended): for every matrix `A` and integers `1 ≤ l ≤ m`,
`l < k ≤ n`, `rsvd(A, k, l)` returns factors of mutually inconsistent
sizes: `U_k` has only `l` columns and `Σ_k` has only `min(l, n)`
entries, but `Vᵗ_k` has `k` rows, because the SVD of the `l×n` matrix
`B` is taken in full-matrices form, making `Vᵗ` an `n×n` matrix from
which `k` rows can be sliced. -/
theorem rsvd_fullmat {α : Type} [Add α] [Mul α] [Zero α] [Max α]
    [Div α] (la : LinAlg α) (A : Mat α) (k l : Nat)
    (hl : 1 ≤ l) (hlm : l ≤ A.rows) (hlk : l < k) (hkn : k ≤ A.cols) :
    okP (fun o => o.1.cols = l ∧ o.2.1.len = min l A.cols ∧
        o.2.2.1.rows = k ∧ o.2.2.1.cols = A.cols)
      (rsvd la A k (some l) false) ∧
    ∃ Q, find_Q la A l = .ok Q ∧
      (mmv (transpose Q) A).rows = l ∧
      (mmv (transpose Q) A).cols = A.cols ∧
      (np_svd la (mmv (transpose Q) A)).2.2.rows = A.cols ∧
      (np_svd la (mmv (transpose Q) A)).2.2.cols = A.cols := by
  have h : ¬(A.rows = 0 ∧ 0 < (some l).getD (2 * k)) := by
    rintro ⟨h1, -⟩; omega
  constructor
  · rw [rsvd_eq la A k (some l) false h]
    show min k (min A.rows l) = l ∧
      min k (min (min A.rows l) A.cols) = min l A.cols ∧
      min k A.cols = k ∧ A.cols = A.cols
    refine ⟨by omega, by omega, by omega, rfl⟩
  · refine ⟨_, find_Q_eq la A l (by rintro ⟨h1, -⟩; omega), ?_, rfl,
        rfl, rfl⟩
    show min A.rows l = l
    omega

/-- C6 (witness): the amended statement evaluated on the concrete run
`rsvd idLA AI2 2 (some 1)`. -/
theorem rsvd_fullmat_witness :
    (1 ≤ 1 ∧ 1 ≤ AI2.rows ∧ 1 < 2 ∧ 2 ≤ AI2.cols) ∧
    (okP (fun o => o.1.cols = 1 ∧ o.2.1.len = min 1 AI2.cols ∧
        o.2.2.1.rows = 2 ∧ o.2.2.1.cols = AI2.cols)
      (rsvd idLA AI2 2 (some 1) false) ∧
     ∃ Q, find_Q idLA AI2 1 = .ok Q ∧
      (mmv (transpose Q) AI2).rows = 1 ∧
      (mmv (transpose Q) AI2).cols = AI2.cols ∧
      (np_svd idLA (mmv (transpose Q) AI2)).2.2.rows = AI2.cols ∧
      (np_svd idLA (mmv (transpose Q) AI2)).2.2.cols = AI2.cols) :=
  ⟨⟨le_refl 1, by decide, by decide, by decide⟩,
   rsvd_fullmat idLA AI2 2 1 (le_refl 1) (by decide) (by decide)
     (by decide)⟩

/-- C9 (confirmed): the computation is deterministic given the random
draw.  If two oracles supply the same Gaussian stream (a fixed seed
yields the same sequence of draws) and the same deterministic QR and
SVD primitives, then `rsvd` produces identical outputs on identical
inputs `A`, `k`, `l`, `return_Q`: the random draw of Ω in `find_Q` is
the only source of variation. -/
theorem rsvd_deterministic {α : Type} [Add α] [Mul α] [Zero α] [Max α]
    [Div α] (la1 la2 : LinAlg α) (A : Mat α) (k : Nat)
    (lopt : Option Nat) (b : Bool)
    (hg : la1.gauss = la2.gauss) (hq1 : la1.qrQ = la2.qrQ)
    (hq2 : la1.qrR = la2.qrR) (hs1 : la1.svdU = la2.svdU)
    (hs2 : la1.svdS = la2.svdS) (hs3 : la1.svdVt = la2.svdVt) :
    rsvd la1 A k lopt b = rsvd la2 A k lopt b := by
  obtain ⟨g1, q1, r1, u1, s1, v1⟩ := la1
  obtain ⟨g2, q2, r2, u2, s2, v2⟩ := la2
  change g1 = g2 at hg
  change q1 = q2 at hq1
  change r1 = r2 at hq2
  change u1 = u2 at hs1
  change s1 = s2 at hs2
  change v1 = v2 at hs3
  subst hg hq1 hq2 hs1 hs2 hs3
  rfl

/-- C9 (witness): the statement applied to two identical oracles on
the concrete input `A11`. -/
theorem rsvd_deterministic_witness :
    (idLA.gauss = idLA.gauss ∧ idLA.qrQ = idLA.qrQ ∧
     idLA.qrR = idLA.qrR ∧ idLA.svdU = idLA.svdU ∧
     idLA.svdS = idLA.svdS ∧ idLA.svdVt = idLA.svdVt) ∧
    rsvd idLA A11 1 none false = rsvd idLA A11 1 none false :=
  ⟨⟨rfl, rfl, rfl, rfl, rfl, rfl⟩,
   rsvd_deterministic idLA idLA A11 1 none false rfl rfl rfl rfl rfl
     rfl⟩

/-- C10 (confirmed): calling `rsvd(A, 0)` — violating the stated
precondition `k ≥ 1` — raises no error: `l` defaults to 0, and the
call returns an `m×0` matrix `U_k`, a length-0 vector `Σ_k`, and a
`0×n` matrix `Vᵗ_k` (and no basis, since `return_Q` is not set). -/
theorem rsvd_k_zero {α : Type} [Add α] [Mul α] [Zero α] [Max α] [Div α]
    (la : LinAlg α) (A : Mat α) (_hn : 1 ≤ A.cols) :
    okP (fun o => o.1.rows = A.rows ∧ o.1.cols = 0 ∧ o.2.1.len = 0 ∧
        o.2.2.1.rows = 0 ∧ o.2.2.1.cols = A.cols ∧ o.2.2.2 = none)
      (rsvd la A 0 none false) := by
  have h : ¬(A.rows = 0 ∧ 0 < (none : Option Nat).getD (2 * 0)) := by
    rintro ⟨-, h2⟩
    simp [Option.getD] at h2
  rw [rsvd_eq la A 0 none false h]
  show A.rows = A.rows ∧ min 0 (min A.rows 0) = 0 ∧
    min 0 (min (min A.rows 0) A.cols) = 0 ∧
    min 0 A.cols = 0 ∧ A.cols = A.cols ∧ none = none
  refine ⟨rfl, by omega, by omega, by omega, rfl, rfl⟩

/-- C10 (witness): the statement evaluated on the concrete run
`rsvd idLA A11 0`. -/
theorem rsvd_k_zero_witness :
    1 ≤ A11.cols ∧
    okP (fun o => o.1.rows = A11.rows ∧ o.1.cols = 0 ∧ o.2.1.len = 0 ∧
        o.2.2.1.rows = 0 ∧ o.2.2.1.cols = A11.cols ∧ o.2.2.2 = none)
      (rsvd idLA A11 0 none false) :=
  ⟨by decide, rsvd_k_zero idLA A11 (by decide)⟩

end RSVD
